import Mathlib

/-
Verification development for the dice-roller backend's formula calculator.

The definitions below are a shallow embedding of `formula-calculator.js`
(class `FormulaCalculator`) and of the rank helpers in `actions.js`.
JavaScript numbers are modelled as rationals (ℚ) for running totals and
multipliers and as naturals/integers for die faces and counts; the
die source (`Math.random`-backed `rollDie`) is modelled as a stream
`ℕ → ℕ` of face outcomes consumed left to right, exactly in the order the
source calls `rollDie`.  JS falsy-`||` lookups are modelled explicitly
(zero and absent both fall through); a per-rank map lookup that would
yield `undefined` in JS (no rank entry and no E entry) is modelled as 0 —
the catalog never exercises that corner and no theorem relies on it.
-/

namespace DiceRoller

/-- Rank tiers E..S, from `actions.js`. -/
inductive Rank where
  | E | D | C | B | A | S
deriving DecidableEq, Repr

/-- Embeds `getRankLevel` from `actions.js`: `{E:0, D:1, C:2, B:3, A:4, S:5}[rank] || 0`. -/
def getRankLevel : Rank → ℕ
  | .E => 0
  | .D => 1
  | .C => 2
  | .B => 3
  | .A => 4
  | .S => 5

/-- Embeds the `RANK_BONUSES` table from `actions.js`. -/
def RANK_BONUSES : Rank → ℚ
  | .E => 0
  | .D => 10
  | .C => 20
  | .B => 30
  | .A => 40
  | .S => 50

/-- Rank tier rendered as the string used in breakdown text. -/
def rankStr : Rank → String
  | .E => "E"
  | .D => "D"
  | .C => "C"
  | .B => "B"
  | .A => "A"
  | .S => "S"

/-- The die source: the stream of face outcomes, consumed in call order. -/
abbrev DieSource := ℕ → ℕ

/-- A dice-group `count` field: a number or a symbolic string such as `MR_LEVEL`. -/
inductive CountExpr where
  | num (n : ℤ)
  | sym (s : String)

/-- A plain dice spec `{count, sides}` (used by `extraDice` / `convertToDice`). -/
structure DiceSpec where
  count : ℕ
  sides : ℕ

/-- A dice group from `calculableFormula.dice`. -/
structure DiceCfg where
  count : CountExpr
  sides : ℕ
  keepHighest : Option ℕ := none
  keepLowest : Option ℕ := none
  baseDiceByRank : Option (Rank → Option ℤ) := none
  diceByRank : Option (Rank → Option ℤ) := none

/-- The modifier variants handled by `applyModifier`'s switch. -/
inductive Modifier where
  | multiplier (baseMultiplier : ℚ)
  | threshold_multiplier (threshold : ℚ) (multiplierByRank : Option (Rank → Option ℚ)) (mult : ℚ)
  | success_bonus (threshold : ℚ) (successBonusByRank : Option (Rank → Option ℚ))
      (bonusByRank : Rank → Option ℚ) (failureBonus : Option ℚ)
  | explosion (threshold : ℕ) (chance : Option ℚ) (extraDice : DiceSpec)
  | divisor (d : ℚ)
  | aoe_divisor (d : ℚ)
  | bonus_conversion (conversionRate : ℕ) (convertToDice : DiceSpec)
  | conditional (cond : String) (value : ℚ)

/-- An action's `calculableFormula`. -/
structure ActionFormula where
  dice : List DiceCfg
  bonuses : List String
  modifiers : List Modifier

/-- JS truthiness of an optional numeric field (`undefined` and `0` are falsy). -/
def truthyN : Option ℕ → Bool
  | some n => n != 0
  | none => false

/-- Embeds the JS lookup `map[rank] || map.E` for rational-valued per-rank maps:
zero or absent rank entries fall through to the E entry (0 when even that is absent). -/
def jsLookupQ (f : Rank → Option ℚ) (r : Rank) : ℚ :=
  match f r with
  | some v => if v = 0 then (f Rank.E).getD 0 else v
  | none => (f Rank.E).getD 0

/-- Embeds the JS lookup `map[rank] || map.E` for integer-valued dice-count tables. -/
def lookupTableZ (t : Rank → Option ℤ) (r : Rank) : ℤ :=
  match t r with
  | some v => if v = 0 then (t Rank.E).getD 0 else v
  | none => (t Rank.E).getD 0

/-- Embeds the JS guard `x || 1` applied to a modifier's multiplier field. -/
def jsOrOne (q : ℚ) : ℚ := if q = 0 then 1 else q

/-- Stable descending insertion (ties keep original order), modelling the stable
JS `rolls.sort((a, b) => b - a)`. -/
def insertDesc (a : ℕ) : List ℕ → List ℕ
  | [] => [a]
  | b :: t => if b ≤ a then a :: b :: t else b :: insertDesc a t

/-- Stable descending sort, as performed by `rollDice` for `keepHighest`. -/
def sortDesc : List ℕ → List ℕ
  | [] => []
  | a :: t => insertDesc a (sortDesc t)

/-- Stable ascending insertion (ties keep original order), modelling the stable
JS `rolls.sort((a, b) => a - b)`. -/
def insertAsc (a : ℕ) : List ℕ → List ℕ
  | [] => [a]
  | b :: t => if a ≤ b then a :: b :: t else b :: insertAsc a t

/-- Stable ascending sort, as performed by `rollDice` for `keepLowest`. -/
def sortAsc : List ℕ → List ℕ
  | [] => []
  | a :: t => insertAsc a (sortAsc t)

/-- The faces produced by `count` consecutive `rollDie` calls starting at stream
position `pos`. -/
def rollFaces (src : DieSource) : ℕ → ℕ → List ℕ
  | _, 0 => []
  | pos, count + 1 => src pos :: rollFaces src (pos + 1) count

/-- Embeds `rollDice` for an already-resolved numeric count: roll `count` dice,
then keep the highest/lowest slice when the corresponding field is truthy.
The stream is advanced by `count` regardless of keeping. -/
def rollDiceKept (cfg : DiceCfg) (count : ℕ) (src : DieSource) (pos : ℕ) : List ℕ :=
  let rolls := rollFaces src pos count
  if truthyN cfg.keepHighest then (sortDesc rolls).take (cfg.keepHighest.getD 0)
  else if truthyN cfg.keepLowest then (sortAsc rolls).take (cfg.keepLowest.getD 0)
  else rolls

/-- Embeds `resolveCountVariable`: `MR_LEVEL`/`WR_LEVEL` give the rank level,
everything else (including `BASE_BY_RANK`/`DICE_BY_RANK`) gives 0. -/
def resolveCountVariable (countVar : String) (weaponRank masteryRank : Rank) : ℕ :=
  if countVar = "MR_LEVEL" then getRankLevel masteryRank
  else if countVar = "WR_LEVEL" then getRankLevel weaponRank
  else 0

/-- The fully resolved count of a dice group, following `calculateActionRoll`
lines 78-92: symbolic counts are resolved first, then `baseDiceByRank` and
`diceByRank` (in that order) override the count when present. -/
def resolveCount (cfg : DiceCfg) (weaponRank masteryRank : Rank) : ℤ :=
  let c0 : ℤ :=
    match cfg.count with
    | .num n => n
    | .sym s => (resolveCountVariable s weaponRank masteryRank : ℤ)
  let c1 : ℤ :=
    match cfg.baseDiceByRank with
    | some t => lookupTableZ t masteryRank
    | none => c0
  match cfg.diceByRank with
  | some t => lookupTableZ t masteryRank
  | none => c1

/-- A recorded dice group, as pushed onto `diceGroups`. -/
structure DiceGroup where
  type : String
  rolls : List ℕ
  sum : ℕ
  keepHighest : Option ℕ
  keepLowest : Option ℕ
deriving DecidableEq, Repr

/-- Output of the dice-rolling phase of `calculateActionRoll`. -/
structure DicePhaseOut where
  pos : ℕ
  total : ℚ
  rawDice : ℕ
  groups : List DiceGroup
deriving DecidableEq, Repr

/-- Embeds the dice phase of `calculateActionRoll` (lines 77-111): resolve each
group's count, skip the group unless the count is positive, otherwise roll and
record it, accumulating the running total and the raw dice total. -/
def dicePhase (weaponRank masteryRank : Rank) (src : DieSource) :
    List DiceCfg → ℕ → DicePhaseOut
  | [], pos => ⟨pos, 0, 0, []⟩
  | cfg :: rest, pos =>
    let c := resolveCount cfg weaponRank masteryRank
    if 0 < c then
      let kept := rollDiceKept cfg c.toNat src pos
      let s := kept.sum
      let g : DiceGroup :=
        ⟨toString c ++ "d" ++ toString cfg.sides, kept, s, cfg.keepHighest, cfg.keepLowest⟩
      let o := dicePhase weaponRank masteryRank src rest (pos + c.toNat)
      ⟨o.pos, (s : ℚ) + o.total, s + o.rawDice, g :: o.groups⟩
    else dicePhase weaponRank masteryRank src rest pos

/-- A recorded bonus entry, as pushed onto `bonusBreakdown`. -/
structure BonusEntry where
  type : String
  rank : Option Rank
  value : ℚ
  display : String
deriving DecidableEq, Repr

/-- Embeds the bonus phase of `calculateActionRoll` (lines 114-134): `MR` and
`WR` tags add the rank bonus looked up in the table `RB`; other tags do nothing. -/
def bonusPhase (RB : Rank → ℚ) (weaponRank masteryRank : Rank) :
    List String → ℚ × List BonusEntry
  | [] => (0, [])
  | t :: rest =>
    let o := bonusPhase RB weaponRank masteryRank rest
    if t = "MR" then
      (RB masteryRank + o.1,
        ⟨"Mastery Rank", some masteryRank, RB masteryRank, rankStr masteryRank ++ " MR"⟩ :: o.2)
    else if t = "WR" then
      (RB weaponRank + o.1,
        ⟨"Weapon Rank", some weaponRank, RB weaponRank, rankStr weaponRank ++ " WR"⟩ :: o.2)
    else o

/-- Output of the cascading-explosion loop in `applyModifier`. -/
structure CascadeOut where
  rolls : List ℕ
  extraTriggers : ℕ
  pos : ℕ
  rounds : ℕ
deriving DecidableEq, Repr

/-- Embeds the `while (currentExplosions > 0 && maxIterations > 0)` cascade of
the explosion modifier: each round rolls one extra die per pending trigger, and
new faces at or above the threshold trigger the next round.  `rounds` counts
executed loop iterations. -/
def cascade (threshold sides : ℕ) (src : DieSource) :
    ℕ → ℕ → ℕ → CascadeOut
  | 0, _, pos => ⟨[], 0, pos, 0⟩
  | fuel + 1, cur, pos =>
    if cur = 0 then ⟨[], 0, pos, 0⟩
    else
      let newRolls := rollFaces src pos cur
      let next := (newRolls.filter (fun r => threshold ≤ r)).length
      let o := cascade threshold sides src fuel next (pos + cur)
      ⟨newRolls ++ o.rolls, next + o.extraTriggers, o.pos, o.rounds + 1⟩

/-- The record returned by one `applyModifier` call. -/
structure ModResult where
  result : ℚ
  details : String
  multiplier : ℚ
  value : ℚ
  explosionRolls : Option (List ℕ)
deriving DecidableEq, Repr

/-- The threshold-multiplier factor resolution:
`modifier.multiplierByRank ? modifier.multiplierByRank[mr] || .E : modifier.multiplier`. -/
def resolveMult (byRank : Option (Rank → Option ℚ)) (mult : ℚ) (masteryRank : Rank) : ℚ :=
  match byRank with
  | some f => jsLookupQ f masteryRank
  | none => mult

/-- Embeds `applyModifier` (the big switch), returning the modifier record and
the advanced stream position. -/
def applyModifier (m : Modifier) (currentResult : ℚ) (allRolls : List ℕ)
    (weaponRank masteryRank : Rank) (otherBonuses : ℕ) (src : DieSource) (pos : ℕ) :
    ModResult × ℕ :=
  match m with
  | .multiplier b =>
    (⟨currentResult * b, "Base multiplier " ++ toString b ++ "x", b, 0, none⟩, pos)
  | .threshold_multiplier th byRank mult =>
    if th ≤ currentResult then
      let v := resolveMult byRank mult masteryRank
      (⟨currentResult * v, rankStr masteryRank ++ " Critical", v, 0, none⟩, pos)
    else
      (⟨currentResult, "Threshold " ++ toString th ++ " not met", 1, 0, none⟩, pos)
  | .success_bonus th sbr br fb =>
    if th ≤ currentResult then
      let bonus := match sbr with
        | some f => jsLookupQ f masteryRank
        | none => jsLookupQ br masteryRank
      (⟨currentResult + bonus, "Success bonus", 1, bonus, none⟩, pos)
    else
      match fb with
      | some v =>
        if v ≠ 0 then (⟨currentResult + v, "Consolation bonus", 1, v, none⟩, pos)
        else (⟨currentResult, "Failed threshold " ++ toString th, 1, 0, none⟩, pos)
      | none => (⟨currentResult, "Failed threshold " ++ toString th, 1, 0, none⟩, pos)
  | .explosion th _chance extra =>
    let explosions := (allRolls.filter (fun r => th ≤ r)).length
    if 0 < explosions then
      let c := cascade th extra.sides src 10 explosions pos
      (⟨currentResult + (c.rolls.sum : ℚ),
        toString (explosions + c.extraTriggers) ++ " explosions",
        1, (c.rolls.sum : ℚ), some c.rolls⟩, c.pos)
    else (⟨currentResult, "No explosions", 1, 0, none⟩, pos)
  | .divisor d =>
    (⟨(⌊currentResult / d⌋ : ℚ), "Divided by " ++ toString d, 1 / d, 0, none⟩, pos)
  | .aoe_divisor _ =>
    (⟨currentResult, "Single target", 1, 0, none⟩, pos)
  | .bonus_conversion rate conv =>
    let convertible := otherBonuses / rate
    let extraCount := convertible * conv.count
    let leftover := otherBonuses % rate
    if 0 < extraCount then
      let rolls := rollFaces src pos extraCount
      (⟨currentResult - (otherBonuses : ℚ) + (rolls.sum : ℚ) + (leftover : ℚ),
        "Converted " ++ toString extraCount ++ " dice",
        1, (rolls.sum : ℚ) + (leftover : ℚ) - (otherBonuses : ℚ), some rolls⟩,
        pos + extraCount)
    else (⟨currentResult, "No conversion", 1, 0, none⟩, pos)
  | .conditional _ _ =>
    (⟨currentResult, "Conditional not met", 1, 0, none⟩, pos)

/-- Whether a modifier is the `explosion` variant (`modifier.type === 'explosion'`). -/
def isExplosion : Modifier → Bool
  | .explosion _ _ _ => true
  | _ => false

/-- Whether a modifier is the `bonus_conversion` variant. -/
def isConversion : Modifier → Bool
  | .bonus_conversion _ _ => true
  | _ => false

/-- The `modifier.type` string of each variant. -/
def typeName : Modifier → String
  | .multiplier _ => "multiplier"
  | .threshold_multiplier _ _ _ => "threshold_multiplier"
  | .success_bonus _ _ _ _ => "success_bonus"
  | .explosion _ _ _ => "explosion"
  | .divisor _ => "divisor"
  | .aoe_divisor _ => "aoe_divisor"
  | .bonus_conversion _ _ => "bonus_conversion"
  | .conditional _ _ => "conditional"

/-- A recorded modifier entry, as pushed onto `modifierBreakdown`. -/
structure ModEntry where
  type : String
  description : String
  value : ℚ
  multiplier : ℚ
  explosionRolls : List ℕ
deriving DecidableEq, Repr

/-- Output of the modifier phase of `calculateActionRoll`. -/
structure ModPhaseOut where
  finalResult : ℚ
  pos : ℕ
  explosionRolls : List ℕ
  rawExtra : ℕ
  breakdown : List ModEntry
deriving DecidableEq, Repr

/-- Embeds the modifier loop of `calculateActionRoll` (lines 150-173): apply
each modifier in order; record it when its value is nonzero, its multiplier is
not 1, or it is an explosion; concatenate recorded extra rolls; add recorded
explosion rolls (only for the `explosion` type) to the raw dice total. -/
def modPhase (weaponRank masteryRank : Rank) (otherBonuses : ℕ) (allRolls : List ℕ)
    (src : DieSource) : List Modifier → ℚ → ℕ → ModPhaseOut
  | [], cur, pos => ⟨cur, pos, [], 0, []⟩
  | m :: rest, cur, pos =>
    let step := applyModifier m cur allRolls weaponRank masteryRank otherBonuses src pos
    let r := step.1
    let o := modPhase weaponRank masteryRank otherBonuses allRolls src rest r.result step.2
    let entryRolls := r.explosionRolls.getD []
    { finalResult := o.finalResult
      pos := o.pos
      explosionRolls :=
        (if (r.value ≠ 0 ∨ r.multiplier ≠ 1 ∨ isExplosion m = true) ∧ r.explosionRolls.isSome
          then entryRolls else []) ++ o.explosionRolls
      rawExtra :=
        (if (r.value ≠ 0 ∨ r.multiplier ≠ 1 ∨ isExplosion m = true) ∧ r.explosionRolls.isSome
            ∧ isExplosion m = true
          then entryRolls.sum else 0) + o.rawExtra
      breakdown :=
        if r.value ≠ 0 ∨ r.multiplier ≠ 1 ∨ isExplosion m = true
          then ⟨typeName m, r.details, r.value, jsOrOne r.multiplier, entryRolls⟩ :: o.breakdown
          else o.breakdown }

/-- Numbers joined with a separator, as in JS `array.join(sep)`. -/
def joinNums (sep : String) (l : List ℕ) : String :=
  String.intercalate sep (l.map (fun n => toString n))

/-- One dice group rendered for the breakdown string (lines 373-382). -/
def groupPart (g : DiceGroup) : String :=
  if truthyN g.keepHighest then
    g.type ++ "[" ++ joinNums (", ") g.rolls ++ "→"
      ++ joinNums (", ") ((sortDesc g.rolls).take (g.keepHighest.getD 0)) ++ "]"
  else if truthyN g.keepLowest then
    g.type ++ "[" ++ joinNums (", ") g.rolls ++ "→"
      ++ joinNums (", ") ((sortAsc g.rolls).take (g.keepLowest.getD 0)) ++ "]"
  else g.type ++ "[" ++ joinNums (" + ") g.rolls ++ "]"

/-- The explosion-count label used in the `EXP[...]` block (lines 387-388),
with the JS `|| `fallback on a falsy description. -/
def explosionLabel (modifierBreakdown : List ModEntry) (explosionRolls : List ℕ) : String :=
  match modifierBreakdown.find? (fun e => e.type == "explosion") with
  | some e =>
    if e.description = "" then toString explosionRolls.length ++ " explosions"
    else e.description
  | none => toString explosionRolls.length ++ " explosions"

/-- Bonus entries with positive value rendered as `value(display)` (lines 393-397). -/
def bonusParts : List BonusEntry → List String
  | [] => []
  | b :: rest =>
    if 0 < b.value then (toString b.value ++ "(" ++ b.display ++ ")") :: bonusParts rest
    else bonusParts rest

/-- The modifier-append loop of `generateBreakdownString` (lines 404-411). -/
def appendModEntries (base : String) : List ModEntry → String
  | [] => base
  | e :: rest =>
    if e.multiplier ≠ 0 ∧ e.multiplier ≠ 1 then
      appendModEntries
        ("(" ++ base ++ ") × " ++ toString e.multiplier ++ "(" ++ e.description ++ ")") rest
    else if e.value ≠ 0 ∧ e.type ≠ "explosion" then
      appendModEntries
        (base ++ " + " ++ toString e.value ++ "(" ++ e.description ++ ")") rest
    else appendModEntries base rest

/-- Embeds `generateBreakdownString`. -/
def generateBreakdownString (diceGroups : List DiceGroup) (bonusBreakdown : List BonusEntry)
    (modifierBreakdown : List ModEntry) (explosionRolls : List ℕ) : String :=
  let parts := diceGroups.map groupPart
  let parts := parts ++
    (if explosionRolls.length ≠ 0 then
      ["EXP[" ++ joinNums (" + ") explosionRolls ++ "]("
        ++ explosionLabel modifierBreakdown explosionRolls ++ ")"]
    else [])
  let parts := parts ++ bonusParts bonusBreakdown
  appendModEntries (String.intercalate (" + ") parts) modifierBreakdown

/-- The record returned by `calculateActionRoll` (the JS `details` object is
flattened into the same record). -/
structure CalcResult where
  result : ℤ
  rawDiceResult : ℕ
  diceGroups : List DiceGroup
  bonusBreakdown : List BonusEntry
  modifierBreakdown : List ModEntry
  explosionRolls : List ℕ
  rawDiceTotal : ℕ
  baseTotal : ℚ
  finalResult : ℚ
  breakdown : String
deriving DecidableEq, Repr

/-- Embeds `calculateActionRoll`, parameterized by the rank-bonus table `RB`
(the source reads the imported constant `RANK_BONUSES`). -/
def calculateActionRollWith (RB : Rank → ℚ) (action : ActionFormula)
    (weaponRank masteryRank : Rank) (otherBonuses : ℕ) (src : DieSource) : CalcResult :=
  let d := dicePhase weaponRank masteryRank src action.dice 0
  let b := bonusPhase RB weaponRank masteryRank action.bonuses
  let bonusBreakdown := b.2 ++
    (if 0 < otherBonuses then [⟨"Other", none, (otherBonuses : ℚ), "Buff"⟩] else [])
  let totalResult := d.total + b.1 + (if 0 < otherBonuses then (otherBonuses : ℚ) else 0)
  let allRolls := (d.groups.map (fun g => g.rolls)).flatten
  let mo := modPhase weaponRank masteryRank otherBonuses allRolls src
    action.modifiers totalResult d.pos
  let rawTotal := d.rawDice + mo.rawExtra
  { result := max 1 ⌊mo.finalResult⌋
    rawDiceResult := rawTotal
    diceGroups := d.groups
    bonusBreakdown := bonusBreakdown
    modifierBreakdown := mo.breakdown
    explosionRolls := mo.explosionRolls
    rawDiceTotal := rawTotal
    baseTotal := totalResult
    finalResult := mo.finalResult
    breakdown := generateBreakdownString d.groups bonusBreakdown mo.breakdown mo.explosionRolls }

/-- `calculateActionRoll` with the production `RANK_BONUSES` table. -/
def calculateActionRoll (action : ActionFormula) (weaponRank masteryRank : Rank)
    (otherBonuses : ℕ) (src : DieSource) : CalcResult :=
  calculateActionRollWith RANK_BONUSES action weaponRank masteryRank otherBonuses src

/-- The shared calculator instance: its only per-call field is `rollHistory`,
which `calculateActionRoll` resets to `[]` on entry (line 68) and never reads.
The state is the `rollHistory` field (absent before any call). -/
def calculateActionRollStateful (st : Option (List ℚ)) (action : ActionFormula)
    (weaponRank masteryRank : Rank) (otherBonuses : ℕ) (src : DieSource) :
    Option (List ℚ) × CalcResult :=
  (some [], calculateActionRoll action weaponRank masteryRank otherBonuses src)

/-- No modifier in the list is an explosion. -/
def noExplosionIn (mods : List Modifier) : Bool :=
  mods.all (fun m => !isExplosion m)

/-- No explosion modifier occurs after a bonus-conversion modifier.  Under this
ordering condition the raw dice total cannot be influenced by `otherBonuses`
through the stream shift that a conversion's extra rolls cause. -/
def noExplosionAfterConversion : List Modifier → Bool
  | [] => true
  | m :: rest =>
    if isConversion m then noExplosionIn rest else noExplosionAfterConversion rest

/-- Total of the extra rolls recorded by explosion-type entries of a modifier
breakdown. -/
def expRollSum (entries : List ModEntry) : ℕ :=
  ((entries.filter (fun e => e.type == "explosion")).map (fun e => e.explosionRolls.sum)).sum

/-! Concrete fixtures used by witnesses and counterexamples. -/

/-- Die stream (5, 18, 1, 1, ...): the advantage scenario of the spec. -/
def srcAdvantage : DieSource := fun n => if n = 0 then 5 else if n = 1 then 18 else 1

/-- The `Recover` formula: `2d20` keep highest 1, no bonuses, no modifiers. -/
def recoverFormula : ActionFormula :=
  { dice := [{ count := .num 2, sides := 20, keepHighest := some 1 }]
    bonuses := []
    modifiers := [] }

/-- Die stream (6, 5, 3, 2, 2, ...). -/
def srcConvExp : DieSource :=
  fun n => if n = 0 then 6 else if n = 1 then 5 else if n = 2 then 3 else 2

/-- A formula with a bonus conversion followed by an explosion: `1d6`, convert
every 1 point of other bonus into `1d6`, then explode faces ≥ 6. -/
def convExpFormula : ActionFormula :=
  { dice := [{ count := .num 1, sides := 6 }]
    bonuses := []
    modifiers := [.bonus_conversion 1 ⟨1, 6⟩, .explosion 6 none ⟨1, 6⟩] }

/-- The same dice but explosion before conversion (satisfies
`noExplosionAfterConversion`). -/
def expConvFormula : ActionFormula :=
  { dice := [{ count := .num 1, sides := 6 }]
    bonuses := []
    modifiers := [.explosion 6 none ⟨1, 6⟩, .bonus_conversion 1 ⟨1, 6⟩] }

/-- A per-rank multiplier table with only an S entry of 2. -/
def rankMapS2 : Rank → Option ℚ := fun r => if r = .S then some 2 else none

/-- A per-rank dice-count table with a zero D entry and an E entry of 2. -/
def tableD0 : Rank → Option ℤ :=
  fun r => if r = .D then some 0 else if r = .E then some 2 else none

/-- A per-rank dice-count table with only an E entry of 7. -/
def tableE7 : Rank → Option ℤ := fun r => if r = .E then some 7 else none

/-- A per-rank dice-count table that is 0 everywhere. -/
def tableZero : Rank → Option ℤ := fun _ => some 0

/-- A dice group whose count comes from `tableZero` (resolves to 0, skipped). -/
def cfgZero : DiceCfg :=
  { count := .sym ("BASE_BY_RANK"), sides := 20, baseDiceByRank := some tableZero }

/-- A dice group whose count comes from `tableD0`. -/
def cfgD0 : DiceCfg :=
  { count := .sym ("BASE_BY_RANK"), sides := 20, baseDiceByRank := some tableD0 }

/-! Helper lemmas. -/

/-- Congruence for the modifier loop: replacing the tail of the modifier list by
a pointwise-equivalent one does not change the loop's output. -/
lemma modPhase_append_congr (weaponRank masteryRank : Rank) (b : ℕ) (rolls : List ℕ)
    (src : DieSource) (xs ys : List Modifier)
    (h : ∀ cur pos, modPhase weaponRank masteryRank b rolls src xs cur pos
      = modPhase weaponRank masteryRank b rolls src ys cur pos) :
    ∀ (pre : List Modifier) (cur : ℚ) (pos : ℕ),
      modPhase weaponRank masteryRank b rolls src (pre ++ xs) cur pos
        = modPhase weaponRank masteryRank b rolls src (pre ++ ys) cur pos := by
  intro pre
  induction pre with
  | nil => exact h
  | cons m t ih =>
    intro cur pos
    simp only [List.cons_append, modPhase, List.append_eq]
    rw [ih]

/-- An `aoe_divisor` or `conditional` modifier at the head of the modifier list
is dropped by the loop: it changes neither the running total, nor the stream
position, nor any recorded data. -/
lemma modPhase_cons_noop (weaponRank masteryRank : Rank) (b : ℕ) (rolls : List ℕ)
    (src : DieSource) (m : Modifier) (rest : List Modifier)
    (h : (∃ d, m = .aoe_divisor d) ∨ (∃ c v, m = .conditional c v)) :
    ∀ cur pos, modPhase weaponRank masteryRank b rolls src (m :: rest) cur pos
      = modPhase weaponRank masteryRank b rolls src rest cur pos := by
  rcases h with ⟨d, rfl⟩ | ⟨c, v, rfl⟩ <;> intro cur pos <;>
    simp [modPhase, applyModifier, isExplosion]

/-- The explosion branch of `applyModifier` never reads the `chance` field. -/
lemma applyModifier_explosion_chance (th : ℕ) (c₁ c₂ : Option ℚ) (extra : DiceSpec)
    (cur : ℚ) (rolls : List ℕ) (weaponRank masteryRank : Rank) (b : ℕ)
    (src : DieSource) (pos : ℕ) :
    applyModifier (.explosion th c₁ extra) cur rolls weaponRank masteryRank b src pos
      = applyModifier (.explosion th c₂ extra) cur rolls weaponRank masteryRank b src pos := rfl

/-- The modifier loop is insensitive to the `chance` field of an explosion
modifier at the head of the list. -/
lemma modPhase_cons_chance (weaponRank masteryRank : Rank) (b : ℕ) (rolls : List ℕ)
    (src : DieSource) (th : ℕ) (c₁ c₂ : Option ℚ) (extra : DiceSpec) (rest : List Modifier) :
    ∀ cur pos, modPhase weaponRank masteryRank b rolls src (.explosion th c₁ extra :: rest) cur pos
      = modPhase weaponRank masteryRank b rolls src (.explosion th c₂ extra :: rest) cur pos := by
  intro cur pos
  rfl

/-- Rounds of the cascade loop never exceed the fuel (the JS `maxIterations`). -/
lemma cascade_rounds_le_fuel (threshold sides : ℕ) (src : DieSource) :
    ∀ (fuel cur pos : ℕ), (cascade threshold sides src fuel cur pos).rounds ≤ fuel := by
  intro fuel
  induction fuel with
  | zero => intro cur pos; simp [cascade]
  | succ f ih =>
    intro cur pos
    by_cases h : cur = 0
    · simp [cascade, h]
    · simp only [cascade, if_neg h]
      exact Nat.succ_le_succ (ih _ _)

/-- For any modifier that is not a bonus conversion (or when the other-bonus
arguments agree), `applyModifier` advances the stream, reports extra rolls, and
— whenever extra rolls are present — reports value and multiplier, all
independently of the running total and of the other-bonus argument. -/
lemma applyModifier_side_indep (m : Modifier) (c₁ c₂ : ℚ) (b₁ b₂ : ℕ) (rolls : List ℕ)
    (weaponRank masteryRank : Rank) (src : DieSource) (pos : ℕ)
    (h : isConversion m = false ∨ b₁ = b₂) :
    (applyModifier m c₁ rolls weaponRank masteryRank b₁ src pos).2
        = (applyModifier m c₂ rolls weaponRank masteryRank b₂ src pos).2
      ∧ (applyModifier m c₁ rolls weaponRank masteryRank b₁ src pos).1.explosionRolls
        = (applyModifier m c₂ rolls weaponRank masteryRank b₂ src pos).1.explosionRolls
      ∧ ((applyModifier m c₁ rolls weaponRank masteryRank b₁ src pos).1.explosionRolls.isSome
            = true →
          (applyModifier m c₁ rolls weaponRank masteryRank b₁ src pos).1.value
            = (applyModifier m c₂ rolls weaponRank masteryRank b₂ src pos).1.value
          ∧ (applyModifier m c₁ rolls weaponRank masteryRank b₁ src pos).1.multiplier
            = (applyModifier m c₂ rolls weaponRank masteryRank b₂ src pos).1.multiplier) := by
  cases m with
  | multiplier b => exact ⟨rfl, rfl, by simp [applyModifier]⟩
  | threshold_multiplier th byRank mult =>
    refine ⟨?_, ?_, ?_⟩ <;> simp only [applyModifier] <;> (repeat' split) <;> simp
  | success_bonus th sbr br fb =>
    refine ⟨?_, ?_, ?_⟩ <;> simp only [applyModifier] <;> (repeat' split) <;> simp
  | explosion th ch extra =>
    refine ⟨?_, ?_, ?_⟩ <;> simp only [applyModifier] <;> (repeat' split) <;> simp
  | divisor d => exact ⟨rfl, rfl, by simp [applyModifier]⟩
  | aoe_divisor d => exact ⟨rfl, rfl, by simp [applyModifier]⟩
  | bonus_conversion rate conv =>
    rcases h with hf | rfl
    · simp [isConversion] at hf
    · refine ⟨?_, ?_, ?_⟩ <;> simp only [applyModifier] <;> (repeat' split) <;> simp
  | conditional c v => exact ⟨rfl, rfl, by simp [applyModifier]⟩

/-- The modifier loop's stream position, recorded extra rolls and raw-dice
addition do not depend on the incoming running total. -/
lemma modPhase_cur_indep (weaponRank masteryRank : Rank) (b : ℕ) (rolls : List ℕ)
    (src : DieSource) :
    ∀ (mods : List Modifier) (c₁ c₂ : ℚ) (pos : ℕ),
      (modPhase weaponRank masteryRank b rolls src mods c₁ pos).pos
          = (modPhase weaponRank masteryRank b rolls src mods c₂ pos).pos
        ∧ (modPhase weaponRank masteryRank b rolls src mods c₁ pos).explosionRolls
          = (modPhase weaponRank masteryRank b rolls src mods c₂ pos).explosionRolls
        ∧ (modPhase weaponRank masteryRank b rolls src mods c₁ pos).rawExtra
          = (modPhase weaponRank masteryRank b rolls src mods c₂ pos).rawExtra := by
  intro mods
  induction mods with
  | nil => exact fun c₁ c₂ pos => ⟨rfl, rfl, rfl⟩
  | cons m rest ih =>
    intro c₁ c₂ pos
    obtain ⟨hpos, hrolls, hvm⟩ := applyModifier_side_indep m c₁ c₂ b b rolls
      weaponRank masteryRank src pos (Or.inr rfl)
    obtain ⟨ih1, ih2, ih3⟩ := ih
      (applyModifier m c₁ rolls weaponRank masteryRank b src pos).1.result
      (applyModifier m c₂ rolls weaponRank masteryRank b src pos).1.result
      (applyModifier m c₁ rolls weaponRank masteryRank b src pos).2
    simp only [modPhase]
    rw [← hpos, ← hrolls]
    by_cases hs :
      (applyModifier m c₁ rolls weaponRank masteryRank b src pos).1.explosionRolls.isSome = true
    · obtain ⟨hv, hm⟩ := hvm hs
      rw [← hv, ← hm]
      exact ⟨ih1, by rw [ih2], by rw [ih3]⟩
    · rw [Bool.not_eq_true, Option.not_isSome, Option.isNone_iff_eq_none] at hs
      simp [hs, ih1, ih2, ih3]

/-- Without explosion modifiers the loop adds nothing to the raw dice total. -/
lemma modPhase_noExp_rawExtra (weaponRank masteryRank : Rank) (b : ℕ) (rolls : List ℕ)
    (src : DieSource) :
    ∀ (mods : List Modifier), noExplosionIn mods = true →
      ∀ (cur : ℚ) (pos : ℕ),
        (modPhase weaponRank masteryRank b rolls src mods cur pos).rawExtra = 0 := by
  intro mods
  induction mods with
  | nil => intro _ cur pos; rfl
  | cons m rest ih =>
    intro h cur pos
    simp only [noExplosionIn, List.all_cons, Bool.and_eq_true, Bool.not_eq_true'] at h
    have hrest : noExplosionIn rest = true := by
      simpa [noExplosionIn] using h.2
    simp only [modPhase]
    simp [h.1, ih hrest]

/-- Provided no explosion modifier follows a bonus conversion, the raw-dice
addition of the modifier loop does not depend on the other-bonus argument (nor
on the incoming running total). -/
lemma modPhase_bonus_indep (weaponRank masteryRank : Rank) (rolls : List ℕ)
    (src : DieSource) (b₁ b₂ : ℕ) :
    ∀ (mods : List Modifier), noExplosionAfterConversion mods = true →
      ∀ (c₁ c₂ : ℚ) (pos : ℕ),
        (modPhase weaponRank masteryRank b₁ rolls src mods c₁ pos).rawExtra
          = (modPhase weaponRank masteryRank b₂ rolls src mods c₂ pos).rawExtra := by
  intro mods
  induction mods with
  | nil => intro _ c₁ c₂ pos; rfl
  | cons m rest ih =>
    intro h c₁ c₂ pos
    by_cases hc : isConversion m = true
    · have hm : isExplosion m = false := by
        cases m <;> simp_all [isConversion, isExplosion]
      have hrest : noExplosionIn rest = true := by
        simpa [noExplosionAfterConversion, hc] using h
      simp only [modPhase]
      simp [hm, modPhase_noExp_rawExtra weaponRank masteryRank b₁ rolls src rest hrest,
        modPhase_noExp_rawExtra weaponRank masteryRank b₂ rolls src rest hrest]
    · have hrest : noExplosionAfterConversion rest = true := by
        simpa [noExplosionAfterConversion, hc] using h
      have hc' : isConversion m = false := by simpa using hc
      obtain ⟨hpos, hrolls, hvm⟩ := applyModifier_side_indep m c₁ c₂ b₁ b₂ rolls
        weaponRank masteryRank src pos (Or.inl hc')
      have ihx := ih hrest
        (applyModifier m c₁ rolls weaponRank masteryRank b₁ src pos).1.result
        (applyModifier m c₂ rolls weaponRank masteryRank b₂ src pos).1.result
      simp only [modPhase]
      rw [← hpos, ← hrolls]
      by_cases hs :
        (applyModifier m c₁ rolls weaponRank masteryRank b₁ src pos).1.explosionRolls.isSome
          = true
      · obtain ⟨hv, hm⟩ := hvm hs
        rw [← hv, ← hm]
        rw [ihx]
      · rw [Bool.not_eq_true, Option.not_isSome, Option.isNone_iff_eq_none] at hs
        simp [hs, ihx]

/-- The dice phase's raw dice total is the sum of the recorded group sums. -/
lemma dicePhase_raw_eq_sum (weaponRank masteryRank : Rank) (src : DieSource) :
    ∀ (cfgs : List DiceCfg) (pos : ℕ),
      (dicePhase weaponRank masteryRank src cfgs pos).rawDice
        = ((dicePhase weaponRank masteryRank src cfgs pos).groups.map (fun g => g.sum)).sum := by
  intro cfgs
  induction cfgs with
  | nil => intro pos; rfl
  | cons cfg rest ih =>
    intro pos
    simp only [dicePhase]
    split
    · simp [ih]
    · exact ih pos

/-- Unfolding lemma for `expRollSum`. -/
lemma expRollSum_cons (e : ModEntry) (l : List ModEntry) :
    expRollSum (e :: l)
      = (if e.type = "explosion" then e.explosionRolls.sum else 0) + expRollSum l := by
  simp only [expRollSum, List.filter_cons]
  split <;> simp_all

/-- A modifier's type string is `"explosion"` exactly for the explosion variant. -/
lemma typeName_eq_explosion (m : Modifier) :
    (typeName m = "explosion") ↔ isExplosion m = true := by
  cases m <;> simp only [typeName, isExplosion] <;> decide

/-- The modifier loop's raw-dice addition equals the total of the extra rolls
recorded on explosion-type breakdown entries. -/
lemma modPhase_rawExtra_eq_breakdown (weaponRank masteryRank : Rank) (b : ℕ)
    (rolls : List ℕ) (src : DieSource) :
    ∀ (mods : List Modifier) (cur : ℚ) (pos : ℕ),
      (modPhase weaponRank masteryRank b rolls src mods cur pos).rawExtra
        = expRollSum (modPhase weaponRank masteryRank b rolls src mods cur pos).breakdown := by
  intro mods
  induction mods with
  | nil => intro cur pos; rfl
  | cons m rest ih =>
    intro cur pos
    simp only [modPhase]
    by_cases hp :
      ((applyModifier m cur rolls weaponRank masteryRank b src pos).1.value ≠ 0
        ∨ (applyModifier m cur rolls weaponRank masteryRank b src pos).1.multiplier ≠ 1
        ∨ isExplosion m = true)
    · by_cases hm : isExplosion m = true
      · have ht : typeName m = "explosion" := (typeName_eq_explosion m).2 hm
        by_cases hs :
          (applyModifier m cur rolls weaponRank masteryRank b src pos).1.explosionRolls.isSome
            = true
        · simp [hp, hm, hs, ht, expRollSum_cons, ih]
        · rw [Bool.not_eq_true, Option.not_isSome, Option.isNone_iff_eq_none] at hs
          simp [hp, hm, hs, ht, expRollSum_cons, ih]
      · have ht : ¬(typeName m = "explosion") := fun hh => hm ((typeName_eq_explosion m).1 hh)
        simp [hp, hm, ht, expRollSum_cons, ih]
        split <;> simp [expRollSum_cons, ht, ih]
    · simp [hp, ih]

/-- A dice group whose resolved count is not positive is skipped entirely. -/
lemma dicePhase_skip (weaponRank masteryRank : Rank) (src : DieSource)
    (cfg : DiceCfg) (rest : List DiceCfg) (pos : ℕ)
    (h : resolveCount cfg weaponRank masteryRank ≤ 0) :
    dicePhase weaponRank masteryRank src (cfg :: rest) pos
      = dicePhase weaponRank masteryRank src rest pos := by
  simp only [dicePhase]
  rw [if_neg (not_lt.mpr h)]

set_option maxRecDepth 8000

/-! Claim theorems. -/

/-- C2 counterexample: (i) with `2d20 keepHighest 1` and die stream (5, 18),
`rawDiceTotal` is 18, not the 23 = 5 + 18 that "sum of every die face rolled"
would give (dropped raw faces are excluded); (ii) with a bonus conversion
followed by an explosion and die stream (6, 5, 3, ...), `rawDiceTotal` is 11
at otherBonus = 0 but 9 at otherBonus = 1 — the conversion's extra rolls shift
the stream consumed by the explosion, so `rawDiceTotal` is not independent of
`otherBonus`. -/
theorem claim2_counterexample :
    (calculateActionRoll recoverFormula .E .E 0 srcAdvantage).rawDiceTotal = 18
    ∧ (18 : ℕ) ≠ 5 + 18
    ∧ (calculateActionRoll convExpFormula .E .E 0 srcConvExp).rawDiceTotal = 11
    ∧ (calculateActionRoll convExpFormula .E .E 1 srcConvExp).rawDiceTotal = 9 := by
  refine ⟨rfl, by decide, rfl, ?_⟩
  norm_num [calculateActionRoll, calculateActionRollWith, dicePhase, bonusPhase, modPhase,
    applyModifier, cascade, rollDiceKept, rollFaces, resolveCount, resolveCountVariable,
    truthyN, isExplosion, isConversion, typeName, jsOrOne, srcConvExp, convExpFormula]

/-- C2 (amended): for every evaluation, `rawDiceTotal` equals the sum of the
recorded dice-group sums (the kept rolls) plus the extra rolls recorded by
explosion modifiers, and it is independent of the rank-bonus table; and —
provided no explosion modifier follows a bonus-conversion modifier — it is
also independent of `otherBonus`. -/
theorem claim2_amended_raw_dice_total (RB RB₂ : Rank → ℚ) (action : ActionFormula)
    (weaponRank masteryRank : Rank) (b b₂ : ℕ) (src : DieSource) :
    (calculateActionRollWith RB action weaponRank masteryRank b src).rawDiceTotal
        = ((calculateActionRollWith RB action weaponRank masteryRank b src).diceGroups.map
            (fun g => g.sum)).sum
          + expRollSum
            (calculateActionRollWith RB action weaponRank masteryRank b src).modifierBreakdown
    ∧ (calculateActionRollWith RB action weaponRank masteryRank b src).rawDiceTotal
        = (calculateActionRollWith RB₂ action weaponRank masteryRank b src).rawDiceTotal
    ∧ (noExplosionAfterConversion action.modifiers = true →
        (calculateActionRollWith RB action weaponRank masteryRank b src).rawDiceTotal
          = (calculateActionRollWith RB action weaponRank masteryRank b₂ src).rawDiceTotal) := by
  refine ⟨?_, ?_, fun h => ?_⟩
  · simp only [calculateActionRollWith]
    rw [dicePhase_raw_eq_sum, modPhase_rawExtra_eq_breakdown]
  · simp only [calculateActionRollWith]
    have hx := (modPhase_cur_indep weaponRank masteryRank b
      (((dicePhase weaponRank masteryRank src action.dice 0).groups.map
        (fun g => g.rolls)).flatten)
      src action.modifiers
      ((dicePhase weaponRank masteryRank src action.dice 0).total
        + (bonusPhase RB weaponRank masteryRank action.bonuses).1
        + (if 0 < b then (b : ℚ) else 0))
      ((dicePhase weaponRank masteryRank src action.dice 0).total
        + (bonusPhase RB₂ weaponRank masteryRank action.bonuses).1
        + (if 0 < b then (b : ℚ) else 0))
      (dicePhase weaponRank masteryRank src action.dice 0).pos).2.2
    rw [hx]
  · simp only [calculateActionRollWith]
    have hx := modPhase_bonus_indep weaponRank masteryRank
      (((dicePhase weaponRank masteryRank src action.dice 0).groups.map
        (fun g => g.rolls)).flatten)
      src b b₂ action.modifiers h
      ((dicePhase weaponRank masteryRank src action.dice 0).total
        + (bonusPhase RB weaponRank masteryRank action.bonuses).1
        + (if 0 < b then (b : ℚ) else 0))
      ((dicePhase weaponRank masteryRank src action.dice 0).total
        + (bonusPhase RB weaponRank masteryRank action.bonuses).1
        + (if 0 < b₂ then (b₂ : ℚ) else 0))
      (dicePhase weaponRank masteryRank src action.dice 0).pos
    rw [hx]

/-- Witness for C2 (amended) at a concrete input: explosion before conversion,
die stream (6, 5, 3, ...), rank-bonus tables `RANK_BONUSES` and constant 999,
other bonuses 0 and 5. -/
theorem claim2_amended_witness :
    noExplosionAfterConversion expConvFormula.modifiers = true
    ∧ (calculateActionRollWith RANK_BONUSES expConvFormula .E .E 0 srcConvExp).rawDiceTotal
        = ((calculateActionRollWith RANK_BONUSES expConvFormula .E .E 0 srcConvExp).diceGroups.map
            (fun g => g.sum)).sum
          + expRollSum
            (calculateActionRollWith RANK_BONUSES expConvFormula .E .E 0 srcConvExp).modifierBreakdown
    ∧ (calculateActionRollWith RANK_BONUSES expConvFormula .E .E 0 srcConvExp).rawDiceTotal
        = (calculateActionRollWith (fun _ => 999) expConvFormula .E .E 0 srcConvExp).rawDiceTotal
    ∧ (calculateActionRollWith RANK_BONUSES expConvFormula .E .E 0 srcConvExp).rawDiceTotal
        = (calculateActionRollWith RANK_BONUSES expConvFormula .E .E 5 srcConvExp).rawDiceTotal := by
  have h := claim2_amended_raw_dice_total RANK_BONUSES (fun _ => 999) expConvFormula .E .E 0 5
    srcConvExp
  exact ⟨by decide, h.1, h.2.1, h.2.2 (by decide)⟩

/-- C4 counterexample: a threshold multiplier whose threshold is not met is NOT
recorded in the modifier breakdown — with running total 50 against threshold
85, `modifierBreakdown` is empty (the claim requires a "threshold not met"
entry), while the total is indeed unchanged. -/
theorem claim4_counterexample :
    (calculateActionRoll
        ⟨[{ count := .num 1, sides := 100 }], [], [.threshold_multiplier 85 (some rankMapS2) 0]⟩
        .E .S 0 (fun _ => 50)).modifierBreakdown = []
    ∧ (calculateActionRoll
        ⟨[{ count := .num 1, sides := 100 }], [], [.threshold_multiplier 85 (some rankMapS2) 0]⟩
        .E .S 0 (fun _ => 50)).finalResult = 50 := by
  constructor <;>
    norm_num [calculateActionRoll, calculateActionRollWith, dicePhase, bonusPhase, modPhase,
      applyModifier, rollDiceKept, rollFaces, resolveCount, resolveCountVariable, truthyN,
      isExplosion, typeName, jsOrOne, rankMapS2, resolveMult, jsLookupQ]

/-- C4 (amended): a threshold multiplier with total ≥ threshold multiplies the
total exactly by the factor resolved per mastery rank (JS `|| E` fallback) and,
when that factor is not 1, is recorded as a rank-labelled "Critical" entry;
with total below the threshold the total is unchanged but the modifier is NOT
recorded in the breakdown (its "threshold not met" detail is discarded). -/
theorem claim4_amended_threshold_multiplier (th : ℚ) (byRank : Option (Rank → Option ℚ))
    (mult : ℚ) (weaponRank masteryRank : Rank) (b : ℕ) (rolls : List ℕ) (src : DieSource)
    (cur : ℚ) (pos : ℕ) :
    (th ≤ cur → resolveMult byRank mult masteryRank ≠ 1 →
        modPhase weaponRank masteryRank b rolls src
            [.threshold_multiplier th byRank mult] cur pos
          = ⟨cur * resolveMult byRank mult masteryRank, pos, [], 0,
              [⟨"threshold_multiplier", rankStr masteryRank ++ " Critical", 0,
                jsOrOne (resolveMult byRank mult masteryRank), []⟩]⟩)
    ∧ (cur < th →
        modPhase weaponRank masteryRank b rolls src
            [.threshold_multiplier th byRank mult] cur pos
          = ⟨cur, pos, [], 0, []⟩) := by
  constructor
  · intro h1 h2
    simp [modPhase, applyModifier, isExplosion, typeName, h1, h2]
  · intro h1
    simp [modPhase, applyModifier, isExplosion, typeName, not_le.mpr h1]

/-- Witness for C4 (amended): threshold 85, per-rank factor map {S: 2}, mastery
rank S — total 90 is multiplied by exactly 2 and recorded as "S Critical";
total 50 is unchanged and nothing is recorded. -/
theorem claim4_amended_witness :
    modPhase .E .S 0 [] (fun _ => 1) [.threshold_multiplier 85 (some rankMapS2) 0] 90 0
      = ⟨180, 0, [], 0, [⟨"threshold_multiplier", "S Critical", 0, 2, []⟩]⟩
    ∧ modPhase .E .S 0 [] (fun _ => 1) [.threshold_multiplier 85 (some rankMapS2) 0] 50 0
      = ⟨50, 0, [], 0, []⟩ := by
  constructor
  · rw [(claim4_amended_threshold_multiplier 85 (some rankMapS2) 0 .E .S 0 [] (fun _ => 1) 90 0).1
      (by norm_num) (by norm_num [resolveMult, jsLookupQ, rankMapS2])]
    norm_num [resolveMult, jsLookupQ, rankMapS2, jsOrOne, rankStr]
    rfl
  · exact (claim4_amended_threshold_multiplier 85 (some rankMapS2) 0 .E .S 0 [] (fun _ => 1)
      50 0).2 (by norm_num)

/-- C6 counterexample: with conversion rate 40, otherBonus 85 and a target dice
spec whose count is 0, we have k = floor(85/40) = 2 > 0, yet the code leaves
the total unchanged (its guard is `k * count > 0`, not `k > 0`), while the
claim's formula would require total − 85 + 0 + 5 ≠ total. -/
theorem claim6_counterexample :
    (applyModifier (.bonus_conversion 40 ⟨0, 100⟩) 100 [] .E .E 85 (fun _ => 1) 0).1.result
      = 100
    ∧ ((100 : ℚ) - 85 + 0 + ((85 % 40 : ℕ) : ℚ) ≠ 100) := by
  constructor
  · norm_num [applyModifier]
  · norm_num

/-- C6 (amended): for a bonus conversion with positive rate, letting
k = floor(otherBonus / rate): when k·count > 0 the new running total is the old
total minus otherBonus plus the sum of k·count fresh rolls of the target dice
plus otherBonus mod rate, and the stream advances by k·count; when
k·count = 0 the total and the stream are unchanged. -/
theorem claim6_amended_bonus_conversion (rate : ℕ) (conv : DiceSpec) (b : ℕ) (cur : ℚ)
    (rolls : List ℕ) (weaponRank masteryRank : Rank) (src : DieSource) (pos : ℕ)
    (hr : 0 < rate) :
    (applyModifier (.bonus_conversion rate conv) cur rolls weaponRank masteryRank b src pos).1.result
        = (if 0 < b / rate * conv.count then
            cur - (b : ℚ) + ((rollFaces src pos (b / rate * conv.count)).sum : ℚ)
              + ((b % rate : ℕ) : ℚ)
          else cur)
    ∧ (applyModifier (.bonus_conversion rate conv) cur rolls weaponRank masteryRank b src pos).2
        = pos + (if 0 < b / rate * conv.count then b / rate * conv.count else 0) := by
  constructor <;> simp only [applyModifier] <;> split <;> simp

/-- Witness for C6 (amended): rate 40, otherBonus 85, target `1d100`, die
stream (30, 31, ...): k = 2, the total 100 becomes 100 − 85 + (30 + 31) + 5 = 81
and the stream advances by 2. -/
theorem claim6_amended_witness :
    (0 : ℕ) < 40
    ∧ (applyModifier (.bonus_conversion 40 ⟨1, 100⟩) 100 [] .E .E 85 (fun n => 30 + n) 0).1.result
        = 81
    ∧ (applyModifier (.bonus_conversion 40 ⟨1, 100⟩) 100 [] .E .E 85 (fun n => 30 + n) 0).2
        = 2 := by
  refine ⟨by norm_num, ?_, ?_⟩
  · rw [(claim6_amended_bonus_conversion 40 ⟨1, 100⟩ 85 100 [] .E .E (fun n => 30 + n) 0
      (by norm_num)).1]
    norm_num [rollFaces]
  · rw [(claim6_amended_bonus_conversion 40 ⟨1, 100⟩ 85 100 [] .E .E (fun n => 30 + n) 0
      (by norm_num)).2]
    norm_num

/-- C7 counterexample: a per-rank dice table with entry 0 for rank D and 2 for
rank E does NOT skip the group at mastery rank D — the JS `||` fallback treats
the present-but-zero entry as absent, resolves the count to the E entry 2 and
rolls two dice (the claim requires the group to resolve to 0 and be skipped). -/
theorem claim7_counterexample :
    (calculateActionRoll ⟨[cfgD0], [], []⟩ .E .D 0 (fun _ => 5)).diceGroups
        = [⟨"2d20", [5, 5], 10, none, none⟩]
    ∧ (calculateActionRoll ⟨[cfgD0], [], []⟩ .E .D 0 (fun _ => 5)).rawDiceTotal = 10 :=
  ⟨rfl, rfl⟩

/-- C7 (amended): `MR_LEVEL`/`WR_LEVEL` resolve to the mastery/weapon rank
level (E..S ↦ 0..5); a per-rank table resolves to the rank's entry when present
and nonzero, and falls back to the E entry when the entry is absent OR zero
(JS falsy `||`); a group whose resolved count is ≤ 0 is skipped entirely —
it contributes nothing and appears in no record. -/
theorem claim7_amended_count_resolution (weaponRank masteryRank : Rank)
    (t tn tb : Rank → Option ℤ) (v : ℤ) (cfg : DiceCfg) (rest : List DiceCfg)
    (src : DieSource) (pos : ℕ)
    (hv : t masteryRank = some v)
    (hn : tn masteryRank = none)
    (h0 : cfg.baseDiceByRank = some tb)
    (h1 : cfg.diceByRank = none)
    (hskip : resolveCount cfg weaponRank masteryRank ≤ 0) :
    resolveCountVariable ("MR_LEVEL") weaponRank masteryRank = getRankLevel masteryRank
    ∧ resolveCountVariable ("WR_LEVEL") weaponRank masteryRank = getRankLevel weaponRank
    ∧ lookupTableZ t masteryRank = (if v = 0 then (t Rank.E).getD 0 else v)
    ∧ lookupTableZ tn masteryRank = (tn Rank.E).getD 0
    ∧ resolveCount cfg weaponRank masteryRank = lookupTableZ tb masteryRank
    ∧ dicePhase weaponRank masteryRank src (cfg :: rest) pos
        = dicePhase weaponRank masteryRank src rest pos := by
  refine ⟨rfl, rfl, ?_, ?_, ?_, ?_⟩
  · simp [lookupTableZ, hv]
  · simp [lookupTableZ, hn]
  · simp [resolveCount, h0, h1]
  · exact dicePhase_skip weaponRank masteryRank src cfg rest pos hskip

/-- Witness for C7 (amended) at concrete tables: level lookups at ranks E/D,
zero-entry fallback (table {D: 0, E: 2} resolves to 2 at D), absent-entry
fallback (table {E: 7} resolves to 7 at D), and a group with an all-zero table
resolving to 0 and being skipped. -/
theorem claim7_amended_witness :
    resolveCountVariable ("MR_LEVEL") .E .D = 1
    ∧ resolveCountVariable ("WR_LEVEL") .E .D = 0
    ∧ lookupTableZ tableD0 .D = 2
    ∧ lookupTableZ tableE7 .D = 7
    ∧ resolveCount cfgZero .E .D = 0
    ∧ dicePhase .E .D (fun _ => 5) [cfgZero] 0 = dicePhase .E .D (fun _ => 5) [] 0 := by
  obtain ⟨h1, h2, h3, h4, h5, h6⟩ :=
    claim7_amended_count_resolution .E .D tableD0 tableE7 tableZero 0 cfgZero [] (fun _ => 5) 0
      (by rfl) (by rfl) (by rfl) (by rfl) (by decide)
  exact ⟨h1.trans (by decide), h2.trans (by decide), h3.trans (by decide), h4.trans (by decide),
    h5.trans (by decide), h6⟩

/-- C1: for every rank-bonus table, action definition, rank pair, other bonus
and die-source outcome, the returned `result` equals
`max(1, floor(running total after all modifiers))` (the structure's
`finalResult` field), hence is an integer ≥ 1 even under negative-leaning
modifier chains. -/
theorem claim1_final_result_floor_max (RB : Rank → ℚ) (action : ActionFormula)
    (weaponRank masteryRank : Rank) (otherBonuses : ℕ) (src : DieSource) :
    (calculateActionRollWith RB action weaponRank masteryRank otherBonuses src).result
      = max 1 ⌊(calculateActionRollWith RB action weaponRank masteryRank
          otherBonuses src).finalResult⌋
    ∧ 1 ≤ (calculateActionRollWith RB action weaponRank masteryRank otherBonuses src).result :=
  ⟨rfl, le_max_left _ _⟩

/-- C3 (code bug): with `dice = [{count: 2, sides: 20, keepHighest: 1}]` and the
die source returning 5 then 18, the kept subset `[18]` and `sum = 18` are
correct, but the recorded group and the rendered breakdown contain only the
kept roll — the raw roll 5 is discarded by `rollDice` before it is recorded,
so the display shows `2d20[18→18]` instead of showing both raw rolls
(the raw→kept rendering in `generateBreakdownString` never sees the raw rolls). -/
theorem claim3_keep_highest_discards_raw_rolls :
    (calculateActionRoll recoverFormula .E .E 0 srcAdvantage).diceGroups
        = [⟨"2d20", [18], 18, some 1, none⟩]
    ∧ (calculateActionRoll recoverFormula .E .E 0 srcAdvantage).breakdown = "2d20[18→18]"
    ∧ (calculateActionRoll recoverFormula .E .E 0 srcAdvantage).result = 18
    ∧ (calculateActionRoll recoverFormula .E .E 0 srcAdvantage).rawDiceTotal = 18 := by
  refine ⟨rfl, rfl, ?_, rfl⟩
  norm_num [calculateActionRoll, calculateActionRollWith, dicePhase, bonusPhase, modPhase,
    applyModifier, rollDiceKept, rollFaces, resolveCount, resolveCountVariable,
    truthyN, sortDesc, insertDesc, srcAdvantage, recoverFormula]

/-- C5: the cascading-explosion loop of the explosion modifier (embedded as
`cascade`, called by `applyModifier` with fuel 10) executes at most 10 rounds
for every threshold, die size, die source, pending-trigger count and stream
position — in particular it terminates even when every new roll re-triggers. -/
theorem claim5_cascade_rounds_le_ten (threshold sides : ℕ) (src : DieSource)
    (explosions pos : ℕ) :
    (cascade threshold sides src 10 explosions pos).rounds ≤ 10 :=
  cascade_rounds_le_fuel threshold sides src 10 explosions pos

/-- C8: `calculateActionRoll` on the shared calculator instance is a pure
function of (action, ranks, otherBonus, die stream): the instance's only
mutable field (`rollHistory`) is reset on entry and never read, so two calls
with identical arguments and identical die streams return structurally
identical results regardless of the instance state left by earlier calls. -/
theorem claim8_stateless_deterministic (st₁ st₂ : Option (List ℚ)) (action : ActionFormula)
    (weaponRank masteryRank : Rank) (otherBonuses : ℕ) (src : DieSource) :
    calculateActionRollStateful st₁ action weaponRank masteryRank otherBonuses src
      = calculateActionRollStateful st₂ action weaponRank masteryRank otherBonuses src := rfl

/-- C9: inserting an `aoe_divisor` or `conditional` modifier anywhere in the
modifier list changes nothing: the running total is unchanged and every field
of the final result is identical to the evaluation without the modifier. -/
theorem claim9_noop_modifiers (RB : Rank → ℚ) (D : List DiceCfg) (B : List String)
    (pre post : List Modifier) (m : Modifier)
    (h : (∃ d, m = .aoe_divisor d) ∨ (∃ c v, m = .conditional c v))
    (weaponRank masteryRank : Rank) (otherBonuses : ℕ) (src : DieSource) :
    calculateActionRollWith RB ⟨D, B, pre ++ m :: post⟩ weaponRank masteryRank otherBonuses src
      = calculateActionRollWith RB ⟨D, B, pre ++ post⟩ weaponRank masteryRank otherBonuses src := by
  have h2 := modPhase_append_congr weaponRank masteryRank otherBonuses
    ((dicePhase weaponRank masteryRank src D 0).groups.map (fun g => g.rolls)).flatten src
    (m :: post) post
    (modPhase_cons_noop weaponRank masteryRank otherBonuses _ src m post h) pre
  simp only [calculateActionRollWith]
  rw [h2]

/-- Witness for C9 at a concrete input: an `aoe_divisor 3` modifier appended to
a plain `1d20` action leaves the whole evaluation result unchanged. -/
theorem claim9_noop_witness :
    calculateActionRollWith RANK_BONUSES
        ⟨[{ count := .num 1, sides := 20 }], [], [.aoe_divisor 3]⟩ .E .E 0 (fun _ => 7)
      = calculateActionRollWith RANK_BONUSES
        ⟨[{ count := .num 1, sides := 20 }], [], []⟩ .E .E 0 (fun _ => 7) :=
  claim9_noop_modifiers RANK_BONUSES [{ count := .num 1, sides := 20 }] [] [] []
    (.aoe_divisor 3) (Or.inl ⟨3, rfl⟩) .E .E 0 (fun _ => 7)

/-- C10: the evaluation result never depends on an explosion modifier's
`chance` field — for any fixed die stream, evaluations of actions differing
only in `chance` (including no chance at all) are structurally identical,
because `applyModifier` triggers an explosion for every qualifying die without
consulting `chance`. -/
theorem claim10_chance_ignored (RB : Rank → ℚ) (D : List DiceCfg) (B : List String)
    (pre post : List Modifier) (th : ℕ) (c₁ c₂ : Option ℚ) (extra : DiceSpec)
    (weaponRank masteryRank : Rank) (otherBonuses : ℕ) (src : DieSource) :
    calculateActionRollWith RB ⟨D, B, pre ++ .explosion th c₁ extra :: post⟩
        weaponRank masteryRank otherBonuses src
      = calculateActionRollWith RB ⟨D, B, pre ++ .explosion th c₂ extra :: post⟩
        weaponRank masteryRank otherBonuses src := by
  have h2 := modPhase_append_congr weaponRank masteryRank otherBonuses
    ((dicePhase weaponRank masteryRank src D 0).groups.map (fun g => g.rolls)).flatten src
    (.explosion th c₁ extra :: post) (.explosion th c₂ extra :: post)
    (modPhase_cons_chance weaponRank masteryRank otherBonuses _ src th c₁ c₂ extra post) pre
  simp only [calculateActionRollWith]
  rw [h2]

end DiceRoller
